import Mathlib

/-!
# Table-of-contents extraction (`ghdoc.go`, `GHDoc.GrabToc`)

A shallow embedding of `GrabToc` and of the library routines it calls.

* Go strings are byte sequences: `GoString := List UInt8`; the string literals of the
  source are written `utf8 "..."`.
* The regular expression of `GrabToc` is kept as a syntax tree (`grabTocRe`) and run by a
  small backtracking matcher with the leftmost-first preference order of Go's `regexp`.
  Its loops carry a fuel that is never exhausted (`starLoop_fuel`, `findAllLoop_fuel`).
* `strconv.Atoi`, `url.QueryUnescape` and `strings.Repeat` are modelled after the Go
  standard library.  A panic is the result `none`; memory is unbounded.
* Go's `int` is taken as the 64-bit signed integer: values are `Int`s and the subtraction
  that computes the indentation count wraps modulo `2^64` (`wrapInt`).
* `removeStuf`, `EscapeSpecChars` and `generateListIndentation` are called by `GrabToc` but
  defined in another file of the repository; they are the fields of `Helpers`, a parameter of
  the embedding.  `specHelpers` is an instance written from the specification, used where a
  concrete document is evaluated.
* The debug output (`doc.d`) has no effect on the result and is left out.
-/

namespace GhToc

/-! ## Strings -/

/-- A Go string: a finite sequence of bytes. -/
abbrev GoString := List UInt8

/-- The bytes of a string literal (UTF-8). -/
def utf8 (s : String) : GoString := s.data.flatMap String.utf8EncodeChar

/-- The byte of an ASCII character. -/
def byteOf (c : Char) : UInt8 := UInt8.ofNat c.toNat

/-! ## Regular expressions -/

/-- Capture registers: the text of each numbered group (`""` while unset). -/
abbrev Caps := Nat → GoString

/-- Assign register `i`. -/
def Caps.set (c : Caps) (i : Nat) (v : GoString) : Caps := fun j => if j = i then v else c j

/-- Syntax of the regular expressions that occur in `GrabToc`. -/
inductive Regex where
  | byte (p : UInt8 → Bool)
  | seq (a b : Regex)
  | alt (a b : Regex)
  | star (a : Regex) (greedy : Bool)
  | group (i : Nat) (a : Regex)

/-- Iteration of `body`: a greedy star tries one more round before leaving, a lazy one
leaves first.  A round that consumes nothing is not repeated.  `fuel` bounds the rounds. -/
def starLoop {R : Type} (body : GoString → Caps → (GoString → Caps → Option R) → Option R)
    (greedy : Bool) : Nat → GoString → Caps → (GoString → Caps → Option R) → Option R
  | 0, s, c, k => k s c
  | fuel + 1, s, c, k =>
    let more : Unit → Option R := fun _ =>
      body s c (fun s1 c1 => if s1.length < s.length then starLoop body greedy fuel s1 c1 k else none)
    if greedy then (more ()).orElse (fun _ => k s c) else (k s c).orElse more

/-- Backtracking matcher in continuation-passing style.  `r.run s c k` matches `r` at the
front of `s` and hands the remaining input and the registers to `k`; alternatives are tried
in preference order and the first one on which `k` succeeds wins (leftmost-first). -/
def Regex.run {R : Type} : Regex → GoString → Caps → (GoString → Caps → Option R) → Option R
  | .byte p, s, c, k =>
    match s with
    | [] => none
    | b :: t => if p b then k t c else none
  | .seq a b, s, c, k => a.run s c (fun s1 c1 => b.run s1 c1 k)
  | .alt a b, s, c, k => (a.run s c k).orElse (fun _ => b.run s c k)
  | .star a greedy, s, c, k => starLoop a.run greedy s.length s c k
  | .group i a, s, c, k =>
    a.run s c (fun s1 c1 => k s1 (c1.set i (s.take (s.length - s1.length))))

/-- Concatenation of a list of expressions (the list is never empty here). -/
def Regex.cat : List Regex → Regex
  | [] => .star (.byte (fun _ => false)) true
  | [r] => r
  | r :: rs => .seq r (Regex.cat rs)

/-- One literal character under the flag `i`: a letter matches both of its cases, and `s`
also matches U+017F (bytes `C5 BF`), the third member of its case-folding orbit.  The pattern
has no `k`, the only other ASCII letter with a fold outside ASCII. -/
def foldChar (ch : Char) : Regex :=
  let b := byteOf ch
  if ch = 's' then
    .alt (.byte (fun x => x == b || x == byteOf 'S')) (.seq (.byte (· == 0xC5)) (.byte (· == 0xBF)))
  else if ch.isLower then .byte (fun x => x == b || x == b - 32)
  else .byte (· == b)

/-- A literal piece of the pattern under the flag `i`. -/
def lit (s : String) : Regex := Regex.cat (s.data.map foldChar)

/-- The class `\s` of Go's `regexp`: tab, newline, form feed, carriage return, space. -/
def isSpace (b : UInt8) : Bool := b == 9 || b == 10 || b == 12 || b == 13 || b == 32

/-- The pattern `\s*`. -/
def ws : Regex := .star (.byte isSpace) true

/-- The pattern `[^"]*` (the quote is the byte `0x22`).  A run of runes other than the quote
is a run of bytes other than `0x22`, since no byte of a longer UTF-8 sequence is ASCII. -/
def notQuote : Regex := .star (.byte (· != 0x22)) true

/-- The pattern `.*?` under the flag `s` (the dot also matches a newline). -/
def lazyAny : Regex := .star (.byte (fun _ => true)) false

/-- The class `[1-6]`. -/
def isLevelDigit (b : UInt8) : Bool := decide (49 ≤ b.toNat) && decide (b.toNat ≤ 54)

/-- The pattern compiled in `GrabToc`:
`(?si)<h(?P<num>[1-6])>\s*<a\s*id="user-content-[^"]*"\s*class="anchor"\s*`
`href="(?P<href>[^"]*)"[^>]*>\s*.*?</a>(?P<name>.*?)</h`.
Group 1 is `num`, group 2 is `href`, group 3 is `name`; `0x3E` is the byte `>`. -/
def grabTocRe : Regex :=
  Regex.cat
    [ lit "<h", .group 1 (.byte isLevelDigit), lit ">", ws,
      lit "<a", ws, lit "id=\"user-content-", notQuote, lit "\"", ws,
      lit "class=\"anchor\"", ws,
      lit "href=\"", .group 2 notQuote, lit "\"", .star (.byte (· != 0x3E)) true, lit ">", ws,
      lazyAny, lit "</a>", .group 3 lazyAny, lit "</h" ]

/-- One attempt of the pattern at the front of `s`: the remaining input and the registers. -/
def matchAt (s : GoString) : Option (GoString × Caps) :=
  grabTocRe.run s (fun _ => []) (fun rest c => some (rest, c))

/-- Loop of `FindAllStringSubmatch`: successive leftmost, non-overlapping matches.  Each
match is the list `[whole, num, href, name]`.  The pattern never matches the empty string,
so the search resumes where the previous match ended. -/
def findAllLoop : Nat → GoString → List (List GoString)
  | 0, _ => []
  | fuel + 1, s =>
    match matchAt s with
    | some (rest, c) => [s.take (s.length - rest.length), c 1, c 2, c 3] :: findAllLoop fuel rest
    | none =>
      match s with
      | [] => []
      | _ :: t => findAllLoop fuel t

/-- The call `r.FindAllStringSubmatch(doc.html, -1)`. -/
def FindAllStringSubmatch (html : GoString) : List (List GoString) :=
  findAllLoop (html.length + 1) html

/-! ## Library routines -/

/-- Largest value of Go's `int` (64 bits). -/
def maxInt : Int := 9223372036854775807

/-- Smallest value of Go's `int` (64 bits). -/
def minInt : Int := -9223372036854775808

/-- Result of an `int` operation: the exact result reduced to the 64-bit signed range. -/
def wrapInt (x : Int) : Int :=
  (x + 9223372036854775808) % 18446744073709551616 - 9223372036854775808

/-- Outcome of the digit loop of `strconv.ParseUint`. -/
inductive UintResult where
  | ok (n : Nat)
  | badSyntax
  | outOfRange

/-- Digit loop of `strconv.ParseUint(s, 10, 64)`: a byte that is no decimal digit is a
syntax error; the value leaving the 64-bit unsigned range is a range error, reported at
once. -/
def parseUintLoop : GoString → Nat → UintResult
  | [], n => .ok n
  | c :: t, n =>
    if 48 ≤ c.toNat ∧ c.toNat ≤ 57 then
      if n ≥ 1844674407370955162 then .outOfRange
      else if n * 10 + (c.toNat - 48) > 18446744073709551615 then .outOfRange
      else parseUintLoop t (n * 10 + (c.toNat - 48))
    else .badSyntax

/-- The call `strconv.Atoi(s)`: the value and whether an error is returned.  An optional
sign, then decimal digits; a syntax error gives 0, a value out of range gives the nearest
bound.  (The fast path of `Atoi` for short inputs returns the same results.) -/
def Atoi (s : GoString) : Int × Bool :=
  match s with
  | [] => (0, true)
  | b :: t =>
    let neg : Bool := b == 45
    let digits : GoString := if b == 43 || b == 45 then t else s
    match digits with
    | [] => (0, true)
    | _ :: _ =>
      match parseUintLoop digits 0 with
      | .badSyntax => (0, true)
      | .outOfRange => if neg then (minInt, true) else (maxInt, true)
      | .ok un =>
        if !neg && decide (un ≥ 9223372036854775808) then (maxInt, true)
        else if neg && decide (un > 9223372036854775808) then (minInt, true)
        else if neg then (-(un : Int), false) else ((un : Int), false)

/-- The test `ishex` of `net/url`. -/
def ishex (c : UInt8) : Bool :=
  (decide (48 ≤ c.toNat) && decide (c.toNat ≤ 57)) ||
  (decide (97 ≤ c.toNat) && decide (c.toNat ≤ 102)) ||
  (decide (65 ≤ c.toNat) && decide (c.toNat ≤ 70))

/-- The value `unhex` of a hexadecimal digit. -/
def unhex (c : UInt8) : Nat :=
  if 48 ≤ c.toNat ∧ c.toNat ≤ 57 then c.toNat - 48
  else if 97 ≤ c.toNat ∧ c.toNat ≤ 102 then c.toNat - 97 + 10
  else if 65 ≤ c.toNat ∧ c.toNat ≤ 70 then c.toNat - 65 + 10
  else 0

/-- First pass of `unescape`: the first `%` that is not followed by two hexadecimal digits,
as the (at most three byte) text of the `EscapeError`. -/
def escapeError : GoString → Option GoString
  | [] => none
  | c :: rest =>
    if c == 37 then
      match rest with
      | a :: b :: t => if ishex a && ishex b then escapeError t else some ((c :: rest).take 3)
      | _ => some ((c :: rest).take 3)
    else escapeError rest

/-- Second pass of `unescape` in query mode: `%XY` becomes the byte `XY`, `+` a space. -/
def unescapeBytes : GoString → GoString
  | [] => []
  | c :: rest =>
    if c == 37 then
      match rest with
      | a :: b :: t => UInt8.ofNat (unhex a * 16 + unhex b) :: unescapeBytes t
      | _ => []
    else if c == 43 then 32 :: unescapeBytes rest
    else c :: unescapeBytes rest

/-- The call `url.QueryUnescape(s)`: the string and the error.  With an error the string
returned is empty. -/
def QueryUnescape (s : GoString) : GoString × Option GoString :=
  match escapeError s with
  | some e => ([], some e)
  | none => (unescapeBytes s, none)

/-- The call `strings.Repeat(s, count)`; `none` is a panic: a negative count, or a result
longer than the largest `int`. -/
def Repeat (s : GoString) (count : Int) : Option GoString :=
  if count < 0 then none
  else if (s.length : Int) * count > maxInt then none
  else some (List.replicate count.toNat s).flatten

/-! ## The document and the helpers -/

/-- The struct `GHDoc`. -/
structure GHDoc where
  Path : GoString
  AbsPaths : Bool
  StartDepth : Int
  Depth : Int
  Escape : Bool
  GhToken : GoString
  Indent : Int
  Debug : Bool
  html : GoString

/-- The functions `GrabToc` calls that are defined outside `ghdoc.go`.
`listIndentation spaces` is the string returned by the closure
`generateListIndentation(spaces)` each time it is called on line 167 (`none`: the call
panics); building the closure on line 120 is taken to have no effect. -/
structure Helpers where
  removeStuf : GoString → GoString
  EscapeSpecChars : GoString → GoString
  listIndentation : Int → Option GoString

/-- The map `group` of `GrabToc`: its keys are the three named groups of the pattern. -/
structure Group where
  num : GoString
  href : GoString
  name : GoString
deriving DecidableEq

/-! ## `GrabToc` -/

/-- Lines 128-136: `group[name] = removeStuf(match[i])` for the named groups
`num` (1), `href` (2), `name` (3). -/
def fillGroup (h : Helpers) (m : List GoString) : Group :=
  { num := h.removeStuf (m.getD 1 []),
    href := h.removeStuf (m.getD 2 []),
    name := h.removeStuf (m.getD 3 []) }

/-- Lines 126-143, the loop over the matches; the state is `(minHeaderNum, groups)`. -/
def matchLoop (h : Helpers) : List (List GoString) → Int × List Group → Int × List Group
  | [], st => st
  | m :: ms, (minHeaderNum, groups) =>
    let group := fillGroup h m
    let n := (Atoi group.num).1
    matchLoop h ms (if n < minHeaderNum then n else minHeaderNum, groups ++ [group])

/-- The expression `n-minHeaderNum-doc.StartDepth` of line 167, in `int` arithmetic. -/
def indentCount (doc : GHDoc) (minHeaderNum n : Int) : Int :=
  wrapInt (wrapInt (n - minHeaderNum) - doc.StartDepth)

/-- Lines 158-169: the entry `tocItem` of one group that passed the two `continue` tests
(`none`: a panic). -/
def tocItem (h : Helpers) (doc : GHDoc) (minHeaderNum : Int) (group : Group) : Option GoString :=
  let n := (Atoi group.num).1
  let link := (QueryUnescape group.href).1
  let link := if doc.AbsPaths then doc.Path ++ link else link
  let tmpSection := h.removeStuf group.name
  let tmpSection := if doc.Escape then h.EscapeSpecChars tmpSection else tmpSection
  match h.listIndentation doc.Indent with
  | none => none
  | some unit =>
    match Repeat unit (indentCount doc minHeaderNum n) with
    | none => none
    | some indentation =>
      some (indentation ++ utf8 "* " ++ utf8 "[" ++ tmpSection ++ utf8 "]" ++
        utf8 "(" ++ link ++ utf8 ")")

/-- Lines 148-172, the loop over the groups; the state is `toc`. -/
def formatLoop (h : Helpers) (doc : GHDoc) (minHeaderNum : Int) :
    List Group → List GoString → Option (List GoString)
  | [], toc => some toc
  | group :: rest, toc =>
    let n := (Atoi group.num).1
    if n ≤ doc.StartDepth then formatLoop h doc minHeaderNum rest toc
    else if doc.Depth > 0 ∧ n > doc.Depth then formatLoop h doc minHeaderNum rest toc
    else
      match tocItem h doc minHeaderNum group with
      | none => none
      | some item => formatLoop h doc minHeaderNum rest (toc ++ [item])

/-- The method `GrabToc`: the outline, or `none` when the call panics.  The debug output
of `doc.d` is left out. -/
def GrabToc (h : Helpers) (doc : GHDoc) : Option (List GoString) :=
  let st := matchLoop h (FindAllStringSubmatch doc.html) (6, [])
  formatLoop h doc st.1 st.2 []

/-! ## An instance of the helpers -/

/-- Modelled from the spec: part of `removeStuf`, which is defined outside `ghdoc.go`.
"Collapse embedded tags": the bytes from `<` to the next `>` are dropped. -/
def dropTags : GoString → Bool → GoString
  | [], _ => []
  | b :: t, inTag =>
    if inTag then dropTags t (b != 0x3E)
    else if b == 0x3C then dropTags t true
    else b :: dropTags t false

/-- Modelled from the spec: `removeStuf` is defined outside `ghdoc.go`.  "Strip residual
markup/whitespace noise from the display text (collapse embedded tags and stray control
characters introduced by the renderer) to obtain plain text": tags and control bytes are
dropped and the blanks at both ends are trimmed. -/
def specRemoveStuf (s : GoString) : GoString :=
  let plain := (dropTags s false).filter (fun b => decide (32 ≤ b.toNat))
  ((plain.dropWhile (· == 32)).reverse.dropWhile (· == 32)).reverse

/-- Modelled from the spec: `EscapeSpecChars` is defined outside `ghdoc.go`.  "Escape
characters that are syntactically significant in the output list-item format (at minimum:
the enclosing-bracket and backslash-sensitive characters used by the link syntax)": a
backslash is put before a backslash, a bracket and a parenthesis. -/
def specEscapeSpecChars (s : GoString) : GoString :=
  s.flatMap (fun b =>
    if b == 0x5C || b == 0x5B || b == 0x5D || b == 0x28 || b == 0x29 then [0x5C, b] else [b])

/-- Modelled from the spec: `generateListIndentation` is defined outside `ghdoc.go`.
"`indent` (unit width/string for one indentation level)": the unit is `spaces` blanks. -/
def specListIndentation (spaces : Int) : Option GoString := Repeat [32] spaces

/-- The helpers as the spec describes them. -/
def specHelpers : Helpers :=
  { removeStuf := specRemoveStuf,
    EscapeSpecChars := specEscapeSpecChars,
    listIndentation := specListIndentation }

/-! ## Vocabulary of the claims -/

/-- The extracted headings, in document order: the slice `groups` after the first loop. -/
def headings (h : Helpers) (html : GoString) : List Group :=
  (FindAllStringSubmatch html).map (fillGroup h)

/-- The level of a heading: `strconv.Atoi(group["num"])` with the error dropped. -/
def level (g : Group) : Int := (Atoi g.num).1

/-- The variable `minHeaderNum` after the first loop. -/
def minHeaderNum (h : Helpers) (html : GoString) : Int :=
  (matchLoop h (FindAllStringSubmatch html) (6, [])).1

/-- The minimum level over all the headings, and 6 when there is none. -/
def minLevel (gs : List Group) : Int := ((gs.map level).min?).getD 6

/-- The depth window of the code: the heading is skipped by neither `continue`. -/
def survives (doc : GHDoc) (g : Group) : Bool :=
  !decide (level g ≤ doc.StartDepth) && !(decide (doc.Depth > 0) && decide (level g > doc.Depth))

/-- The display text of an entry: cleaned, and escaped when `Escape` is set. -/
def displayText (h : Helpers) (doc : GHDoc) (g : Group) : GoString :=
  if doc.Escape then h.EscapeSpecChars (h.removeStuf g.name) else h.removeStuf g.name

/-- The first result of `url.QueryUnescape` on the href of a heading. -/
def decodedHref (g : Group) : GoString := (QueryUnescape g.href).1

/-- The string `unit` written `n` times. -/
def indentation (unit : GoString) (n : Nat) : GoString := (List.replicate n unit).flatten

/-- A value of Go's `int`. -/
def IsInt (x : Int) : Prop := minInt ≤ x ∧ x ≤ maxInt

/-- The helper `removeStuf` leaves a one-digit level unchanged. -/
def FixesLevelDigits (h : Helpers) : Prop :=
  ∀ d : UInt8, isLevelDigit d = true → h.removeStuf [d] = [d]

/-- The groups that occur in an expression. -/
def Regex.groups : Regex → List Nat
  | .byte _ => []
  | .seq a b => a.groups ++ b.groups
  | .alt a b => a.groups ++ b.groups
  | .star a _ => a.groups
  | .group i a => i :: a.groups

/-- The pattern of `GrabToc` after `<h(?P<num>[1-6])`. -/
def grabTocTail : Regex :=
  Regex.cat
    [ lit ">", ws,
      lit "<a", ws, lit "id=\"user-content-", notQuote, lit "\"", ws,
      lit "class=\"anchor\"", ws,
      lit "href=\"", .group 2 notQuote, lit "\"", .star (.byte (· != 0x3E)) true, lit ">", ws,
      lazyAny, lit "</a>", .group 3 lazyAny, lit "</h" ]

/-- The form of the entry of a heading as the outline specifies it: the indent unit repeated
`level - minLevel - StartDepth` times (a count that is not negative), then the bullet, the
bracketed display text and the parenthesized link. -/
def EntryFormat (h : Helpers) (doc : GHDoc) (minLvl : Int) (g : Group) (line : GoString) : Prop :=
  ∃ unit, h.listIndentation doc.Indent = some unit ∧
    0 ≤ level g - minLvl - doc.StartDepth ∧
    line = indentation unit (level g - minLvl - doc.StartDepth).toNat ++
      utf8 "* [" ++ displayText h doc g ++ utf8 "](" ++
      (if doc.AbsPaths then doc.Path ++ decodedHref g else decodedHref g) ++ utf8 ")"

/-! ## Sample documents -/

/-- Three headings at levels 2, 3, 2 with hrefs `#a`, `#b`, `#c`. -/
def scenarioHtml : GoString :=
  utf8 ("<h2><a id=\"user-content-intro\" class=\"anchor\" href=\"#a\"></a>Intro</h2>\n" ++
    "<h3><a id=\"user-content-sub\" class=\"anchor\" href=\"#b\"></a>Sub</h3>\n" ++
    "<h2><a id=\"user-content-next\" class=\"anchor\" href=\"#c\"></a>Next</h2>\n")

/-- The scenario document: no depth window, relative links, an indent of two blanks. -/
def scenarioDoc : GHDoc :=
  { Path := utf8 "README.md", AbsPaths := false, StartDepth := 0, Depth := 0, Escape := false,
    GhToken := [], Indent := 2, Debug := false, html := scenarioHtml }

/-- The scenario document with the first two levels excluded (`StartDepth = 2`). -/
def startDepthTwoDoc : GHDoc := { scenarioDoc with StartDepth := 2 }

/-- The scenario document with a negative `Depth`. -/
def negDepthDoc : GHDoc := { scenarioDoc with Depth := -1 }

/-- The scenario document with absolute links. -/
def absPathsDoc : GHDoc := { scenarioDoc with AbsPaths := true }

/-- A document whose only heading has level 2, read with `StartDepth = 1`. -/
def levelTwoDoc : GHDoc :=
  { Path := utf8 "doc.md", AbsPaths := false, StartDepth := 1, Depth := 0, Escape := false,
    GhToken := [], Indent := 2, Debug := false,
    html := utf8 "<h2><a id=\"user-content-usage\" class=\"anchor\" href=\"#usage\"></a>Usage</h2>" }

/-- A document whose first href ends in a `%` that starts no escape. -/
def badHrefDoc : GHDoc :=
  { Path := utf8 "doc.md", AbsPaths := false, StartDepth := 0, Depth := 0, Escape := false,
    GhToken := [], Indent := 2, Debug := false,
    html := utf8 ("<h1><a id=\"user-content-100\" class=\"anchor\" href=\"#100%\"></a>Sale</h1>\n" ++
      "<h1><a id=\"user-content-next\" class=\"anchor\" href=\"#next\"></a>Next</h1>\n") }

/-- The scenario with every heading one level deeper: levels 3, 4, 3. -/
def shiftedDoc : GHDoc :=
  { scenarioDoc with
    html := utf8 ("<h3><a id=\"user-content-intro\" class=\"anchor\" href=\"#a\"></a>Intro</h3>\n" ++
      "<h4><a id=\"user-content-sub\" class=\"anchor\" href=\"#b\"></a>Sub</h4>\n" ++
      "<h3><a id=\"user-content-next\" class=\"anchor\" href=\"#c\"></a>Next</h3>\n") }

/-- A document with an upper-case heading tag: its text has no `<h`. -/
def upperCaseDoc : GHDoc :=
  { scenarioDoc with
    html := utf8 "<H1><a id=\"user-content-title\" class=\"anchor\" href=\"#title\"></a>Title</H1>" }

/-- A document without a heading. -/
def plainDoc : GHDoc :=
  { scenarioDoc with html := utf8 "<p>No heading <b>here</b>.</p>\n" }

/-- The scenario read with the smallest `int` as `StartDepth`. -/
def minIntDoc : GHDoc := { scenarioDoc with StartDepth := minInt }

/-- The scenario read with `StartDepth = 1`. -/
def startDepthOneDoc : GHDoc := { scenarioDoc with StartDepth := 1 }

/-- The scenario read with `StartDepth = -1`. -/
def startDepthNegDoc : GHDoc := { scenarioDoc with StartDepth := -1 }

/-- The scenario read with `StartDepth = -1` and `Depth = 2`. -/
def windowDoc : GHDoc := { scenarioDoc with StartDepth := -1, Depth := 2 }

/-! ## Lemmas on the matcher -/

theorem orElse_some {α : Type} {a : Option α} {f : Unit → Option α} {x : α}
    (h : a.orElse f = some x) : a = some x ∨ f () = some x := by
  cases a with
  | none => right; simpa [Option.orElse] using h
  | some y => left; simpa [Option.orElse] using h

theorem starLoop_sound {R : Type}
    (body : GoString → Caps → (GoString → Caps → Option R) → Option R) (G : List Nat)
    (hbody : ∀ s c k x, body s c k = some x →
      ∃ s1 c1, k s1 c1 = some x ∧ s1.length ≤ s.length ∧ ∀ j, j ∉ G → c1 j = c j)
    (greedy : Bool) :
    ∀ fuel s c k x, starLoop body greedy fuel s c k = some x →
      ∃ s1 c1, k s1 c1 = some x ∧ s1.length ≤ s.length ∧ ∀ j, j ∉ G → c1 j = c j := by
  intro fuel
  induction fuel with
  | zero =>
    intro s c k x h
    exact ⟨s, c, by simpa [starLoop] using h, le_refl _, fun _ _ => rfl⟩
  | succ n ih =>
    intro s c k x h
    have hmore : ∀ y, body s c (fun s1 c1 =>
        if s1.length < s.length then starLoop body greedy n s1 c1 k else none) = some y →
        ∃ s1 c1, k s1 c1 = some y ∧ s1.length ≤ s.length ∧ ∀ j, j ∉ G → c1 j = c j := by
      intro y hy
      obtain ⟨s1, c1, hk, hlen, hfr⟩ := hbody _ _ _ _ hy
      by_cases hlt : s1.length < s.length
      · simp only [hlt, if_true] at hk
        obtain ⟨s2, c2, hk2, hlen2, hfr2⟩ := ih _ _ _ _ hk
        exact ⟨s2, c2, hk2, by omega, fun j hj => by rw [hfr2 j hj, hfr j hj]⟩
      · simp [hlt] at hk
    have hexit : ∀ y, k s c = some y →
        ∃ s1 c1, k s1 c1 = some y ∧ s1.length ≤ s.length ∧ ∀ j, j ∉ G → c1 j = c j :=
      fun y hy => ⟨s, c, hy, le_refl _, fun _ _ => rfl⟩
    cases greedy with
    | true =>
      simp only [starLoop, if_true] at h
      rcases orElse_some h with h1 | h1
      · exact hmore x h1
      · exact hexit x h1
    | false =>
      simp only [starLoop] at h
      rcases orElse_some h with h1 | h1
      · exact hexit x (by simpa using h1)
      · exact hmore x h1

theorem Regex.run_sound {R : Type} (r : Regex) :
    ∀ (s : GoString) (c : Caps) (k : GoString → Caps → Option R) (x : R),
      r.run s c k = some x →
      ∃ s1 c1, k s1 c1 = some x ∧ s1.length ≤ s.length ∧ ∀ j, j ∉ r.groups → c1 j = c j := by
  induction r with
  | byte p =>
    intro s c k x h
    cases s with
    | nil => simp [Regex.run] at h
    | cons b t =>
      by_cases hp : p b = true
      · simp [Regex.run, hp] at h
        exact ⟨t, c, h, by simp, fun _ _ => rfl⟩
      · simp [Regex.run, hp] at h
  | seq a b iha ihb =>
    intro s c k x h
    simp only [Regex.run] at h
    obtain ⟨s1, c1, h1, hl1, hf1⟩ := iha _ _ _ _ h
    obtain ⟨s2, c2, h2, hl2, hf2⟩ := ihb _ _ _ _ h1
    refine ⟨s2, c2, h2, by omega, fun j hj => ?_⟩
    simp only [Regex.groups, List.mem_append, not_or] at hj
    rw [hf2 j hj.2, hf1 j hj.1]
  | alt a b iha ihb =>
    intro s c k x h
    simp only [Regex.run] at h
    rcases orElse_some h with h1 | h1
    · obtain ⟨s1, c1, hk, hl, hf⟩ := iha _ _ _ _ h1
      exact ⟨s1, c1, hk, hl, fun j hj => hf j (by
        simp only [Regex.groups, List.mem_append, not_or] at hj; exact hj.1)⟩
    · obtain ⟨s1, c1, hk, hl, hf⟩ := ihb _ _ _ _ h1
      exact ⟨s1, c1, hk, hl, fun j hj => hf j (by
        simp only [Regex.groups, List.mem_append, not_or] at hj; exact hj.2)⟩
  | star a greedy iha =>
    intro s c k x h
    simp only [Regex.run] at h
    exact starLoop_sound a.run a.groups iha greedy _ _ _ _ _ h
  | group i a iha =>
    intro s c k x h
    simp only [Regex.run] at h
    obtain ⟨s1, c1, hk, hl, hf⟩ := iha _ _ _ _ h
    refine ⟨s1, _, hk, hl, fun j hj => ?_⟩
    simp only [Regex.groups, List.mem_cons, not_or] at hj
    simp only [Caps.set, hj.1, if_false]
    exact hf j hj.2


theorem grabTocRe_eq :
    grabTocRe = .seq (.seq (.byte (· == 0x3C)) (.byte (fun x => x == 0x68 || x == 0x48)))
      (.seq (.group 1 (.byte isLevelDigit)) grabTocTail) := by
  rfl

theorem grabTocTail_groups : grabTocTail.groups = [2, 3] := by
  decide

theorem run_byte_some {R : Type} {p : UInt8 → Bool} {s : GoString} {c : Caps}
    {k : GoString → Caps → Option R} {x : R} (h : (Regex.byte p).run s c k = some x) :
    ∃ b t, s = b :: t ∧ p b = true ∧ k t c = some x := by
  cases s with
  | nil => simp [Regex.run] at h
  | cons b t =>
    by_cases hp : p b = true
    · simp [Regex.run, hp] at h
      exact ⟨b, t, rfl, hp, h⟩
    · simp [Regex.run, hp] at h

theorem matchAt_some {s rest : GoString} {c : Caps} (h : matchAt s = some (rest, c)) :
    ∃ b d t, s = 0x3C :: b :: d :: t ∧ (b = 0x68 ∨ b = 0x48) ∧ isLevelDigit d = true ∧
      c 1 = [d] ∧ rest.length ≤ t.length := by
  unfold matchAt at h
  rw [grabTocRe_eq] at h
  have hg := grabTocTail_groups
  generalize grabTocTail = tl at h hg
  rw [Regex.run, Regex.run] at h
  obtain ⟨b0, s0, rfl, hp0, h⟩ := run_byte_some h
  obtain ⟨b1, s1, rfl, hp1, h⟩ := run_byte_some h
  rw [Regex.run, Regex.run] at h
  obtain ⟨d, t, rfl, hpd, h⟩ := run_byte_some h
  obtain ⟨s2, c2, hk, hlen, hfr⟩ := Regex.run_sound tl _ _ _ _ h
  simp only [Option.some.injEq, Prod.mk.injEq] at hk
  obtain ⟨rfl, rfl⟩ := hk
  refine ⟨b1, d, t, ?_, ?_, hpd, ?_, hlen⟩
  · simp only [beq_iff_eq] at hp0
    rw [hp0]
  · simpa using hp1
  · rw [hfr 1 (by rw [hg]; decide)]
    simp [Caps.set]

theorem findAllLoop_shape : ∀ (fuel : Nat) (s : GoString) (m : List GoString),
    m ∈ findAllLoop fuel s →
    ∃ whole d href name, m = [whole, [d], href, name] ∧ isLevelDigit d = true := by
  intro fuel
  induction fuel with
  | zero => intro s m hm; simp [findAllLoop] at hm
  | succ n ih =>
    intro s m hm
    simp only [findAllLoop] at hm
    cases hmt : matchAt s with
    | some rc =>
      obtain ⟨rest, c⟩ := rc
      rw [hmt] at hm
      simp only [List.mem_cons] at hm
      rcases hm with rfl | hm
      · obtain ⟨b, d, t, _, _, hd, hc, _⟩ := matchAt_some hmt
        exact ⟨_, d, _, _, by rw [hc], hd⟩
      · exact ih _ _ hm
    | none =>
      rw [hmt] at hm
      cases s with
      | nil => simp at hm
      | cons b t => exact ih _ _ hm

theorem findAllLoop_fuel : ∀ (n m : Nat) (s : GoString), s.length < n → s.length < m →
    findAllLoop n s = findAllLoop m s := by
  intro n
  induction n with
  | zero => intro m s h; omega
  | succ n ih =>
    intro m s hn hm
    cases m with
    | zero => omega
    | succ m =>
      simp only [findAllLoop]
      cases hmt : matchAt s with
      | some rc =>
        obtain ⟨rest, c⟩ := rc
        obtain ⟨b, d, t, rfl, _, _, _, hlen⟩ := matchAt_some hmt
        simp only [List.length_cons] at hn hm
        simp only
        rw [ih m rest (by omega) (by omega)]
      | none =>
        cases s with
        | nil => rfl
        | cons b t =>
          simp only [List.length_cons] at hn hm
          exact ih m t (by omega) (by omega)

theorem findAllLoop_nil : ∀ (fuel : Nat) (s : GoString),
    (∀ t, t <:+ s → matchAt t = none) → findAllLoop fuel s = [] := by
  intro fuel
  induction fuel with
  | zero => intro s _; rfl
  | succ n ih =>
    intro s hs
    simp only [findAllLoop]
    rw [hs s (List.suffix_refl s)]
    cases s with
    | nil => rfl
    | cons b t =>
      simp only
      exact ih t (fun u hu => hs u (hu.trans (List.suffix_cons b t)))

theorem matchAt_none_of_no_tag (s : GoString) (h1 : ¬ [0x3C, 0x68] <:+: s)
    (h2 : ¬ [0x3C, 0x48] <:+: s) : ∀ t, t <:+ s → matchAt t = none := by
  intro t ht
  cases hmt : matchAt t with
  | none => rfl
  | some rc =>
    obtain ⟨rest, c⟩ := rc
    obtain ⟨b, d, u, rfl, hb, _⟩ := matchAt_some hmt
    exfalso
    have hpre : ∀ x : UInt8, [0x3C, x] <:+: 0x3C :: x :: d :: u :=
      fun x => ⟨[], d :: u, by simp⟩
    rcases hb with rfl | rfl
    · exact h1 ((hpre _).trans ht.isInfix)
    · exact h2 ((hpre _).trans ht.isInfix)

theorem Regex.run_none {R : Type} (r : Regex) (s : GoString) (c : Caps) :
    r.run s c (fun _ _ => (none : Option R)) = none := by
  cases hr : r.run s c (fun _ _ => (none : Option R)) with
  | none => rfl
  | some x =>
    obtain ⟨s1, c1, hk, _⟩ := Regex.run_sound r s c _ x hr
    exact absurd hk (by simp)

theorem starLoop_fuel {R : Type}
    (body : GoString → Caps → (GoString → Caps → Option R) → Option R)
    (hnone : ∀ s c, body s c (fun _ _ => none) = none) (greedy : Bool) :
    ∀ (n m : Nat) (s : GoString) (c : Caps) (k : GoString → Caps → Option R),
      s.length ≤ n → s.length ≤ m →
      starLoop body greedy n s c k = starLoop body greedy m s c k := by
  have hempty : ∀ (m : Nat) (c : Caps) (k : GoString → Caps → Option R),
      starLoop body greedy m [] c k = k [] c := by
    intro m c k
    cases m with
    | zero => rfl
    | succ m =>
      simp only [starLoop, List.length_nil, Nat.not_lt_zero, if_false, hnone]
      cases greedy <;> cases k [] c <;> rfl
  intro n
  induction n with
  | zero =>
    intro m s c k hn _
    have hs : s = [] := List.length_eq_zero.1 (Nat.le_zero.1 hn)
    subst hs
    rw [hempty, hempty]
  | succ n ih =>
    intro m s c k hn hm
    cases m with
    | zero =>
      have hs : s = [] := List.length_eq_zero.1 (Nat.le_zero.1 hm)
      subst hs
      rw [hempty, hempty]
    | succ m =>
      have hk : (fun s1 c1 => if s1.length < s.length then starLoop body greedy n s1 c1 k
          else none) = (fun s1 c1 => if s1.length < s.length then starLoop body greedy m s1 c1 k
          else none) := by
        funext s1 c1
        by_cases hlt : s1.length < s.length
        · simp only [hlt, if_true]
          exact ih m s1 c1 k (by omega) (by omega)
        · simp only [hlt, if_false]
      simp only [starLoop, hk]

theorem Regex.run_star_fuel {R : Type} (a : Regex) (greedy : Bool) (n : Nat) (s : GoString)
    (c : Caps) (k : GoString → Caps → Option R) (hn : s.length ≤ n) :
    (Regex.star a greedy).run s c k = starLoop a.run greedy n s c k := by
  simp only [Regex.run]
  exact starLoop_fuel a.run (fun s c => Regex.run_none a s c) greedy _ _ s c k (le_refl _) hn

/-! ## Lemmas on the two loops -/

theorem levelDigit_cases {d : UInt8} (hd : isLevelDigit d = true) :
    d = 49 ∨ d = 50 ∨ d = 51 ∨ d = 52 ∨ d = 53 ∨ d = 54 := by
  simp only [isLevelDigit, Bool.and_eq_true, decide_eq_true_eq] at hd
  have h6 : d.toNat = 49 ∨ d.toNat = 50 ∨ d.toNat = 51 ∨ d.toNat = 52 ∨ d.toNat = 53 ∨
      d.toNat = 54 := by omega
  rcases h6 with h | h | h | h | h | h
  · exact Or.inl (UInt8.ext h)
  · exact Or.inr (Or.inl (UInt8.ext h))
  · exact Or.inr (Or.inr (Or.inl (UInt8.ext h)))
  · exact Or.inr (Or.inr (Or.inr (Or.inl (UInt8.ext h))))
  · exact Or.inr (Or.inr (Or.inr (Or.inr (Or.inl (UInt8.ext h)))))
  · exact Or.inr (Or.inr (Or.inr (Or.inr (Or.inr (UInt8.ext h)))))

theorem Atoi_levelDigit {d : UInt8} (hd : isLevelDigit d = true) :
    1 ≤ (Atoi [d]).1 ∧ (Atoi [d]).1 ≤ 6 := by
  rcases levelDigit_cases hd with h | h | h | h | h | h <;> subst h <;> decide

theorem level_fillGroup (h : Helpers) (hfix : FixesLevelDigits h) {html : GoString}
    {g : Group} (hg : g ∈ headings h html) : 1 ≤ level g ∧ level g ≤ 6 := by
  simp only [headings, List.mem_map] at hg
  obtain ⟨m, hm, rfl⟩ := hg
  obtain ⟨whole, d, href, name, rfl, hd⟩ := findAllLoop_shape _ _ _ hm
  simp only [level, fillGroup, List.getD_cons_succ, List.getD_cons_zero]
  rw [hfix d hd]
  exact Atoi_levelDigit hd

theorem matchLoop_snd (h : Helpers) : ∀ (ms : List (List GoString)) (mn : Int) (gs : List Group),
    (matchLoop h ms (mn, gs)).2 = gs ++ ms.map (fillGroup h) := by
  intro ms
  induction ms with
  | nil => intro mn gs; simp [matchLoop]
  | cons m ms ih => intro mn gs; simp [matchLoop, ih]

theorem matchLoop_fst (h : Helpers) : ∀ (ms : List (List GoString)) (mn : Int) (gs : List Group),
    (matchLoop h ms (mn, gs)).1 =
      ((ms.map (fillGroup h)).map level).foldl (fun a n => if n < a then n else a) mn := by
  intro ms
  induction ms with
  | nil => intro mn gs; simp [matchLoop]
  | cons m ms ih => intro mn gs; simp [matchLoop, ih, level]

theorem GrabToc_eq (h : Helpers) (doc : GHDoc) :
    GrabToc h doc = formatLoop h doc (minHeaderNum h doc.html) (headings h doc.html) [] := by
  simp [GrabToc, minHeaderNum, headings, matchLoop_snd]

theorem minHeaderNum_eq (h : Helpers) (html : GoString) :
    minHeaderNum h html =
      ((headings h html).map level).foldl (fun a n => if n < a then n else a) 6 := by
  simp [minHeaderNum, headings, matchLoop_fst]

theorem foldl_step_le (ns : List Int) : ∀ a : Int,
    ns.foldl (fun a n => if n < a then n else a) a ≤ a ∧
    (∀ n ∈ ns, ns.foldl (fun a n => if n < a then n else a) a ≤ n) ∧
    (ns.foldl (fun a n => if n < a then n else a) a = a ∨
      ns.foldl (fun a n => if n < a then n else a) a ∈ ns) := by
  induction ns with
  | nil => intro a; simp
  | cons n ns ih =>
    intro a
    simp only [List.foldl_cons, List.mem_cons, forall_eq_or_imp]
    by_cases hlt : n < a
    · simp only [hlt, if_true]
      obtain ⟨h1, h2, h3⟩ := ih n
      refine ⟨by omega, ⟨h1, h2⟩, ?_⟩
      rcases h3 with h3 | h3
      · right; left; exact h3
      · right; right; exact h3
    · simp only [hlt, if_false]
      obtain ⟨h1, h2, h3⟩ := ih a
      refine ⟨h1, ⟨by omega, h2⟩, ?_⟩
      rcases h3 with h3 | h3
      · left; exact h3
      · right; right; exact h3

theorem foldl_step_eq_min (ns : List Int) : ∀ a : Int,
    ns.foldl (fun a n => if n < a then n else a) a = ns.foldl min a := by
  induction ns with
  | nil => intro a; rfl
  | cons n ns ih =>
    intro a
    simp only [List.foldl_cons]
    rw [ih]
    congr 1
    rw [Int.min_def]
    split <;> split <;> omega

theorem minHeaderNum_eq_minLevel (h : Helpers) (html : GoString)
    (hle : ∀ g ∈ headings h html, level g ≤ 6) :
    minHeaderNum h html = minLevel (headings h html) := by
  rw [minHeaderNum_eq, minLevel]
  cases hgs : (headings h html) with
  | nil => simp
  | cons g gs =>
    have hg : level g ≤ 6 := hle g (by rw [hgs]; simp)
    simp only [List.map_cons, List.foldl_cons, List.min?_cons', Option.getD_some]
    rw [foldl_step_eq_min]
    congr 1
    split <;> omega

theorem Repeat_some {unit out : GoString} {count : Int} (h : Repeat unit count = some out) :
    0 ≤ count ∧ out = indentation unit count.toNat := by
  unfold Repeat at h
  split at h
  · exact absurd h (by simp)
  · split at h
    · exact absurd h (by simp)
    · simp only [Option.some.injEq] at h
      exact ⟨by omega, by rw [← h, indentation]⟩

theorem entry_text (x t l : GoString) :
    x ++ utf8 "* " ++ utf8 "[" ++ t ++ utf8 "]" ++ utf8 "(" ++ l ++ utf8 ")" =
      x ++ utf8 "* [" ++ t ++ utf8 "](" ++ l ++ utf8 ")" := by
  have h1 : utf8 "* [" = utf8 "* " ++ utf8 "[" := by decide
  have h2 : utf8 "](" = utf8 "]" ++ utf8 "(" := by decide
  rw [h1, h2]
  simp only [List.append_assoc]

theorem tocItem_some {h : Helpers} {doc : GHDoc} {mn : Int} {g : Group} {line : GoString}
    (hl : tocItem h doc mn g = some line) :
    ∃ unit ind, h.listIndentation doc.Indent = some unit ∧
      Repeat unit (indentCount doc mn (level g)) = some ind ∧
      line = ind ++ utf8 "* [" ++ displayText h doc g ++ utf8 "](" ++
        (if doc.AbsPaths then doc.Path ++ decodedHref g else decodedHref g) ++ utf8 ")" := by
  unfold tocItem at hl
  simp only at hl
  cases hu : h.listIndentation doc.Indent with
  | none => rw [hu] at hl; exact absurd hl (by simp)
  | some unit =>
    rw [hu] at hl
    simp only at hl
    cases hr : Repeat unit (indentCount doc mn (Atoi g.num).1) with
    | none => rw [hr] at hl; exact absurd hl (by simp)
    | some ind =>
      rw [hr] at hl
      simp only [Option.some.injEq] at hl
      refine ⟨unit, ind, rfl, hr, ?_⟩
      rw [← hl, entry_text]
      rfl

theorem formatLoop_some (h : Helpers) (doc : GHDoc) (mn : Int) :
    ∀ (gs : List Group) (acc toc : List GoString),
      formatLoop h doc mn gs acc = some toc ↔
      ∃ lines, toc = acc ++ lines ∧
        List.Forall₂ (fun g line => tocItem h doc mn g = some line)
          (gs.filter (survives doc)) lines := by
  intro gs
  induction gs with
  | nil =>
    intro acc toc
    simp only [formatLoop, Option.some.injEq, List.filter_nil, List.forall₂_nil_left_iff]
    constructor
    · intro h1; exact ⟨[], by simp [h1], rfl⟩
    · rintro ⟨lines, h1, rfl⟩; simp [h1]
  | cons g gs ih =>
    intro acc toc
    by_cases hs : survives doc g = true
    · have hs1 := hs
      simp only [survives, level, Bool.and_eq_true, Bool.not_eq_true', decide_eq_false_iff_not,
        Bool.and_eq_false_iff, decide_eq_true_eq, not_le, gt_iff_lt] at hs1
      have c1 : ¬ (Atoi g.num).1 ≤ doc.StartDepth := by omega
      have c2 : ¬ (doc.Depth > 0 ∧ (Atoi g.num).1 > doc.Depth) := by
        rintro ⟨a, b⟩
        rcases hs1.2 with h2 | h2 <;> omega
      simp only [formatLoop, c1, c2, if_false, List.filter_cons, hs, if_true]
      cases ht : tocItem h doc mn g with
      | none =>
        simp only
        constructor
        · intro h1; exact absurd h1 (by simp)
        · rintro ⟨lines, _, h2⟩
          cases h2 with
          | cons hh _ => rw [ht] at hh; exact absurd hh (by simp)
      | some item =>
        simp only
        rw [ih]
        constructor
        · rintro ⟨lines, h1, h2⟩
          exact ⟨item :: lines, by simp [h1], List.Forall₂.cons ht h2⟩
        · rintro ⟨lines, h1, h2⟩
          cases h2 with
          | cons hh htl =>
            rw [ht] at hh
            simp only [Option.some.injEq] at hh
            subst hh
            exact ⟨_, by simp [h1], htl⟩
    · have hs1 := hs
      simp only [survives, level, Bool.and_eq_true, Bool.not_eq_true', decide_eq_false_iff_not,
        Bool.and_eq_false_iff, decide_eq_true_eq, not_le, gt_iff_lt, not_and, not_or, not_lt] at hs1
      have hf : (g :: gs).filter (survives doc) = gs.filter (survives doc) := by
        simp [List.filter_cons, hs]
      rw [hf, ← ih]
      simp only [formatLoop]
      by_cases c1 : (Atoi g.num).1 ≤ doc.StartDepth
      · simp only [c1, if_true]
      · have c2 : doc.Depth > 0 ∧ (Atoi g.num).1 > doc.Depth := by
          have := hs1 (by omega)
          omega
        simp only [c1, c2, if_false, and_self, if_true]

theorem GrabToc_some (h : Helpers) (doc : GHDoc) (toc : List GoString) :
    GrabToc h doc = some toc ↔
      List.Forall₂ (fun g line => tocItem h doc (minHeaderNum h doc.html) g = some line)
        ((headings h doc.html).filter (survives doc)) toc := by
  rw [GrabToc_eq, formatLoop_some]
  constructor
  · rintro ⟨lines, h1, h2⟩
    simp only [List.nil_append] at h1
    rw [h1]; exact h2
  · intro h2
    exact ⟨toc, by simp, h2⟩

theorem forall₂_imp_mem {α β : Type} {R S : α → β → Prop} {l1 : List α} {l2 : List β}
    (h : List.Forall₂ R l1 l2) (himp : ∀ a ∈ l1, ∀ b ∈ l2, R a b → S a b) :
    List.Forall₂ S l1 l2 := by
  induction h with
  | nil => exact List.Forall₂.nil
  | cons hab _ ih =>
    exact List.Forall₂.cons (himp _ (List.mem_cons_self _ _) _ (List.mem_cons_self _ _) hab)
      (ih (fun a ha b hb hr => himp a (List.mem_cons_of_mem _ ha) b (List.mem_cons_of_mem _ hb) hr))

theorem minHeaderNum_bounds (h : Helpers) (hfix : FixesLevelDigits h) (html : GoString) :
    1 ≤ minHeaderNum h html ∧ minHeaderNum h html ≤ 6 ∧
    ∀ g ∈ headings h html, minHeaderNum h html ≤ level g := by
  rw [minHeaderNum_eq]
  obtain ⟨h1, h2, h3⟩ := foldl_step_le ((headings h html).map level) 6
  refine ⟨?_, h1, fun g hg => h2 _ (List.mem_map_of_mem _ hg)⟩
  rcases h3 with h3 | h3
  · rw [h3]; decide
  · obtain ⟨g, hg, hge⟩ := List.mem_map.1 h3
    rw [← hge]
    exact (level_fillGroup h hfix hg).1

theorem indentCount_eq (h : Helpers) (hfix : FixesLevelDigits h) (doc : GHDoc) {g : Group}
    (hg : g ∈ headings h doc.html) (hS : IsInt doc.StartDepth)
    (hpass : doc.StartDepth < level g)
    (hcount : 0 ≤ indentCount doc (minHeaderNum h doc.html) (level g)) :
    indentCount doc (minHeaderNum h doc.html) (level g) =
      level g - minHeaderNum h doc.html - doc.StartDepth := by
  obtain ⟨m1, m2, m3⟩ := minHeaderNum_bounds h hfix doc.html
  have hl := level_fillGroup h hfix hg
  have hm := m3 g hg
  unfold IsInt minInt maxInt at hS
  unfold indentCount wrapInt at hcount ⊢
  omega

theorem survives_iff (doc : GHDoc) (g : Group) :
    survives doc g = true ↔
      doc.StartDepth < level g ∧ (doc.Depth ≤ 0 ∨ level g ≤ doc.Depth) := by
  simp only [survives, Bool.and_eq_true, Bool.not_eq_true', decide_eq_false_iff_not,
    Bool.and_eq_false_iff, decide_eq_true_eq, not_le, gt_iff_lt, not_lt]

theorem specHelpers_fixes : FixesLevelDigits specHelpers := by
  intro d hd
  rcases levelDigit_cases hd with h | h | h | h | h | h <;> subst h <;> decide

theorem forall₂_mem_left {α β : Type} {R : α → β → Prop} {l1 : List α} {l2 : List β}
    (h : List.Forall₂ R l1 l2) : ∀ a ∈ l1, ∃ b ∈ l2, R a b := by
  induction h with
  | nil => intro a ha; simp at ha
  | cons hab _ ih =>
    intro a ha
    rcases List.mem_cons.1 ha with rfl | ha
    · exact ⟨_, List.mem_cons_self _ _, hab⟩
    · obtain ⟨b, hb, hr⟩ := ih a ha
      exact ⟨b, List.mem_cons_of_mem _ hb, hr⟩

theorem forall₂_mem_right {α β : Type} {R : α → β → Prop} {l1 : List α} {l2 : List β}
    (h : List.Forall₂ R l1 l2) : ∀ b ∈ l2, ∃ a ∈ l1, R a b := by
  induction h with
  | nil => intro b hb; simp at hb
  | cons hab _ ih =>
    intro b hb
    rcases List.mem_cons.1 hb with rfl | hb
    · exact ⟨_, List.mem_cons_self _ _, hab⟩
    · obtain ⟨a, ha, hr⟩ := ih b hb
      exact ⟨a, List.mem_cons_of_mem _ ha, hr⟩

theorem minHeaderNum_mem (h : Helpers) (hfix : FixesLevelDigits h) (html : GoString)
    (hne : headings h html ≠ []) : ∃ g ∈ headings h html, level g = minHeaderNum h html := by
  obtain ⟨_, _, hlow⟩ := minHeaderNum_bounds h hfix html
  have h3 := (foldl_step_le ((headings h html).map level) 6).2.2
  rw [← minHeaderNum_eq] at h3
  rcases h3 with h3 | h3
  · obtain ⟨g, hg⟩ := List.exists_mem_of_ne_nil _ hne
    have := hlow g hg
    have := (level_fillGroup h hfix hg).2
    exact ⟨g, hg, by omega⟩
  · obtain ⟨g, hg, hge⟩ := List.mem_map.1 h3
    exact ⟨g, hg, hge⟩

theorem formatLoop_shift (h : Helpers) (doc1 doc2 : GHDoc) (mn1 mn2 : Int)
    (hS1 : doc1.StartDepth = 0) (hD1 : doc1.Depth = 0)
    (hS2 : doc2.StartDepth = 0) (hD2 : doc2.Depth = 0) :
    ∀ (gs1 gs2 : List Group),
      List.Forall₂ (fun g1 g2 => 1 ≤ level g1 ∧ 1 ≤ level g2 ∧
        tocItem h doc2 mn2 g2 = tocItem h doc1 mn1 g1) gs1 gs2 →
      ∀ acc, formatLoop h doc2 mn2 gs2 acc = formatLoop h doc1 mn1 gs1 acc := by
  intro gs1 gs2 hf
  induction hf with
  | nil => intro acc; rfl
  | @cons g1 g2 l1 l2 hab _ ih =>
    intro acc
    obtain ⟨hl1, hl2, hitem⟩ := hab
    unfold level at hl1 hl2
    have a1 : ¬ (Atoi g1.num).1 ≤ doc1.StartDepth := by rw [hS1]; omega
    have a2 : ¬ (Atoi g2.num).1 ≤ doc2.StartDepth := by rw [hS2]; omega
    simp only [formatLoop, a1, a2, hD1, hD2, if_false, gt_iff_lt, lt_self_iff_false, false_and,
      hitem]
    cases tocItem h doc1 mn1 g1 with
    | none => rfl
    | some item => exact ih _

/-! ## The claims -/

/-- C1: when `GrabToc` returns, the outline lists the surviving headings in order and the
line of each is the indent unit repeated `level - minLevel - StartDepth` times, then `* [`,
the cleaned display text, `](`, the link and `)`, where `minLevel` is the minimum level over
all the extracted headings (6 when there is none).  The levels are those of the pattern
(`removeStuf` keeps a level digit) and `StartDepth` is an `int`. -/
theorem GrabToc_entry_format (h : Helpers) (doc : GHDoc) (toc : List GoString)
    (hfix : FixesLevelDigits h) (hS : IsInt doc.StartDepth)
    (hret : GrabToc h doc = some toc) :
    List.Forall₂ (EntryFormat h doc (minLevel (headings h doc.html)))
      ((headings h doc.html).filter (survives doc)) toc := by
  have hmin : minHeaderNum h doc.html = minLevel (headings h doc.html) :=
    minHeaderNum_eq_minLevel h doc.html (fun g hg => (level_fillGroup h hfix hg).2)
  refine forall₂_imp_mem ((GrabToc_some h doc toc).1 hret) ?_
  intro g hg line _ hline
  obtain ⟨hg1, hg2⟩ := List.mem_filter.1 hg
  obtain ⟨unit, ind, hu, hr, hl⟩ := tocItem_some hline
  obtain ⟨hc, hind⟩ := Repeat_some hr
  have hpass := ((survives_iff doc g).1 hg2).1
  have hce := indentCount_eq h hfix doc hg1 hS hpass hc
  rw [hce] at hc hind
  rw [hmin] at hc hind
  exact ⟨unit, hu, hc, by rw [hl, hind]⟩

/-- Witness of C1: the scenario with headings at levels 2, 3, 2. -/
theorem GrabToc_entry_format_witness :
    FixesLevelDigits specHelpers ∧ IsInt scenarioDoc.StartDepth ∧
    GrabToc specHelpers scenarioDoc =
      some [utf8 "* [Intro](#a)", utf8 "  * [Sub](#b)", utf8 "* [Next](#c)"] ∧
    List.Forall₂ (EntryFormat specHelpers scenarioDoc (minLevel (headings specHelpers scenarioDoc.html)))
      ((headings specHelpers scenarioDoc.html).filter (survives scenarioDoc))
      [utf8 "* [Intro](#a)", utf8 "  * [Sub](#b)", utf8 "* [Next](#c)"] :=
  ⟨specHelpers_fixes, ⟨by decide, by decide⟩, by decide!,
    GrabToc_entry_format specHelpers scenarioDoc _ specHelpers_fixes ⟨by decide, by decide⟩
      (by decide!)⟩

/-- C2, as stated, fails: with `Depth = -1` the three headings of the scenario (levels 2, 3,
2) all have an entry, although `Depth` is not 0 and no level is at most `Depth`. -/
theorem depth_window_negative_depth :
    GrabToc specHelpers negDepthDoc =
      some [utf8 "* [Intro](#a)", utf8 "  * [Sub](#b)", utf8 "* [Next](#c)"] ∧
    (headings specHelpers negDepthDoc.html).map level = [2, 3, 2] ∧
    ∀ n ∈ (headings specHelpers negDepthDoc.html).map level,
      ¬ (negDepthDoc.StartDepth < n ∧ (negDepthDoc.Depth = 0 ∨ n ≤ negDepthDoc.Depth)) := by
  decide!

/-- C2, amended: when `GrabToc` returns, the entries of the outline are, in order, those of
the headings whose level satisfies `StartDepth < level` and (`Depth ≤ 0` or
`level ≤ Depth`); no other heading has an entry. -/
theorem GrabToc_depth_window (h : Helpers) (doc : GHDoc) (toc : List GoString)
    (hret : GrabToc h doc = some toc) :
    List.Forall₂ (fun g line => tocItem h doc (minHeaderNum h doc.html) g = some line)
      ((headings h doc.html).filter (fun g =>
        decide (doc.StartDepth < level g ∧ (doc.Depth ≤ 0 ∨ level g ≤ doc.Depth)))) toc := by
  have hp : (fun g => decide (doc.StartDepth < level g ∧ (doc.Depth ≤ 0 ∨ level g ≤ doc.Depth))) =
      survives doc := by
    funext g
    rw [Bool.eq_iff_iff, decide_eq_true_iff, survives_iff]
  rw [hp]
  exact (GrabToc_some h doc toc).1 hret

/-- Witness of the amended C2: the scenario read with `Depth = 2` keeps the two headings of
level 2. -/
theorem GrabToc_depth_window_witness :
    GrabToc specHelpers { scenarioDoc with Depth := 2 } =
      some [utf8 "* [Intro](#a)", utf8 "* [Next](#c)"] ∧
    List.Forall₂
      (fun g line => tocItem specHelpers { scenarioDoc with Depth := 2 }
        (minHeaderNum specHelpers scenarioHtml) g = some line)
      ((headings specHelpers scenarioHtml).filter (fun g =>
        decide ((0 : Int) < level g ∧ ((2 : Int) ≤ 0 ∨ level g ≤ 2))))
      [utf8 "* [Intro](#a)", utf8 "* [Next](#c)"] :=
  ⟨by decide!, GrabToc_depth_window specHelpers { scenarioDoc with Depth := 2 } _ (by decide!)⟩

/-- C3: when `GrabToc` returns, the outline is the image, entry by entry and in the same
order, of the headings that pass the depth window; these form a sub-sequence of the
extracted headings, one per match of the pattern, so the outline is no longer than the
number of extracted headings. -/
theorem GrabToc_order (h : Helpers) (doc : GHDoc) (toc : List GoString)
    (hret : GrabToc h doc = some toc) :
    List.Forall₂ (fun g line => tocItem h doc (minHeaderNum h doc.html) g = some line)
      ((headings h doc.html).filter (survives doc)) toc ∧
    ((headings h doc.html).filter (survives doc)).Sublist (headings h doc.html) ∧
    toc.length = ((headings h doc.html).filter (survives doc)).length ∧
    (headings h doc.html).length = (FindAllStringSubmatch doc.html).length ∧
    toc.length ≤ (headings h doc.html).length := by
  have hf := (GrabToc_some h doc toc).1 hret
  have hlen := hf.length_eq
  have hsub := List.filter_sublist (p := survives doc) (headings h doc.html)
  refine ⟨hf, hsub, hlen.symm, by simp [headings], ?_⟩
  rw [← hlen]
  exact hsub.length_le

/-- Witness of C3: the scenario read with `StartDepth = -1` and `Depth = 2` keeps the two
headings of level 2, in their order. -/
theorem GrabToc_order_witness :
    GrabToc specHelpers windowDoc = some [utf8 "  * [Intro](#a)", utf8 "  * [Next](#c)"] ∧
    (List.Forall₂
      (fun g line => tocItem specHelpers windowDoc (minHeaderNum specHelpers windowDoc.html) g =
        some line)
      ((headings specHelpers windowDoc.html).filter (survives windowDoc))
      [utf8 "  * [Intro](#a)", utf8 "  * [Next](#c)"] ∧
    ((headings specHelpers windowDoc.html).filter (survives windowDoc)).Sublist
      (headings specHelpers windowDoc.html) ∧
    ([utf8 "  * [Intro](#a)", utf8 "  * [Next](#c)"] : List GoString).length =
      ((headings specHelpers windowDoc.html).filter (survives windowDoc)).length ∧
    (headings specHelpers windowDoc.html).length =
      (FindAllStringSubmatch windowDoc.html).length ∧
    ([utf8 "  * [Intro](#a)", utf8 "  * [Next](#c)"] : List GoString).length ≤
      (headings specHelpers windowDoc.html).length) :=
  ⟨by decide!, GrabToc_order specHelpers windowDoc _ (by decide!)⟩

/-- C4 fails on the code: in the scenario read with `StartDepth = 2` the heading of level 3
passes the depth window, the count `3 - 2 - 2` handed to `strings.Repeat` is `-1`, and
`GrabToc` panics instead of returning the outline `* [Sub](#b)`. -/
theorem GrabToc_startDepth_two :
    (headings specHelpers startDepthTwoDoc.html).map level = [2, 3, 2] ∧
    (headings specHelpers startDepthTwoDoc.html).map (survives startDepthTwoDoc) =
      [false, true, false] ∧
    minHeaderNum specHelpers startDepthTwoDoc.html = 2 ∧
    indentCount startDepthTwoDoc 2 3 = -1 ∧
    GrabToc specHelpers startDepthTwoDoc = none := by
  decide!

/-- C5 fails on the code: on a document whose only heading has level 2, read with
`StartDepth = 1` and an indent of two blanks, `strings.Repeat` is called with the count
`2 - 2 - 1 = -1` and `GrabToc` panics. -/
theorem GrabToc_not_total :
    0 ≤ levelTwoDoc.Indent ∧
    (headings specHelpers levelTwoDoc.html).map level = [2] ∧
    indentCount levelTwoDoc (minHeaderNum specHelpers levelTwoDoc.html) 2 = -1 ∧
    GrabToc specHelpers levelTwoDoc = none := by
  decide!

/-- C6 fails on the code: the href `#100%` cannot be decoded, `url.QueryUnescape` returns the
empty string with its error, and the entry has an empty link; the href is not passed
through.  The rest of the outline is produced. -/
theorem GrabToc_bad_href :
    (headings specHelpers badHrefDoc.html).map (fun g => g.href) = [utf8 "#100%", utf8 "#next"] ∧
    QueryUnescape (utf8 "#100%") = ([], some (utf8 "%")) ∧
    GrabToc specHelpers badHrefDoc = some [utf8 "* [Sale]()", utf8 "* [Next](#next)"] ∧
    GrabToc specHelpers { badHrefDoc with AbsPaths := true } =
      some [utf8 "* [Sale](doc.md)", utf8 "* [Next](doc.md#next)"] := by
  decide!

/-- C7: whatever the setting of `Escape`, when `GrabToc` returns, the entry of each surviving
heading ends with the link in parentheses, and the link is `Path` followed by the decoded
href when `AbsPaths` is set, the decoded href alone otherwise. -/
theorem GrabToc_link (h : Helpers) (doc : GHDoc) (e : Bool) (toc : List GoString)
    (hret : GrabToc h { doc with Escape := e } = some toc) :
    List.Forall₂
      (fun g line => ∃ ind, line =
        ind ++ utf8 "* [" ++ displayText h { doc with Escape := e } g ++ utf8 "](" ++
          (if doc.AbsPaths then doc.Path ++ (QueryUnescape g.href).1 else (QueryUnescape g.href).1)
          ++ utf8 ")")
      ((headings h doc.html).filter (survives doc)) toc := by
  have hf := (GrabToc_some h { doc with Escape := e } toc).1 hret
  refine forall₂_imp_mem hf ?_
  intro g _ line _ hline
  obtain ⟨unit, ind, _, _, hl⟩ := tocItem_some hline
  exact ⟨ind, hl⟩

/-- Witness of C7: with `Path = "README.md"` and `AbsPaths` set the link of the href `#a` is
`README.md#a`, with or without `Escape`. -/
theorem GrabToc_link_witness :
    GrabToc specHelpers { absPathsDoc with Escape := true } =
      some [utf8 "* [Intro](README.md#a)", utf8 "  * [Sub](README.md#b)",
        utf8 "* [Next](README.md#c)"] ∧
    List.Forall₂
      (fun g line => ∃ ind, line =
        ind ++ utf8 "* [" ++ displayText specHelpers { absPathsDoc with Escape := true } g ++
          utf8 "](" ++
          (if absPathsDoc.AbsPaths then absPathsDoc.Path ++ (QueryUnescape g.href).1
            else (QueryUnescape g.href).1) ++ utf8 ")")
      ((headings specHelpers absPathsDoc.html).filter (survives absPathsDoc))
      [utf8 "* [Intro](README.md#a)", utf8 "  * [Sub](README.md#b)",
        utf8 "* [Next](README.md#c)"] :=
  ⟨by decide!, GrabToc_link specHelpers absPathsDoc true _ (by decide!)⟩

/-- C8: with no depth window, two documents read with the same settings whose extracted
headings correspond one to one, with the same href and text and every level of the second
equal to the level of the first plus a constant `k`, have the same outline. -/
theorem GrabToc_shift_levels (h : Helpers) (hfix : FixesLevelDigits h) (doc1 doc2 : GHDoc)
    (k : Int) (hcfg : doc2 = { doc1 with html := doc2.html })
    (hS : doc1.StartDepth = 0) (hD : doc1.Depth = 0)
    (hshift : List.Forall₂
      (fun g1 g2 => level g2 = level g1 + k ∧ g2.href = g1.href ∧ g2.name = g1.name)
      (headings h doc1.html) (headings h doc2.html)) :
    GrabToc h doc2 = GrabToc h doc1 := by
  have hS2 : doc2.StartDepth = 0 := by rw [hcfg]; exact hS
  have hD2 : doc2.Depth = 0 := by rw [hcfg]; exact hD
  rw [GrabToc_eq, GrabToc_eq]
  apply formatLoop_shift h doc1 doc2 _ _ hS hD hS2 hD2
  refine forall₂_imp_mem hshift ?_
  intro g1 hg1 g2 hg2 hR
  obtain ⟨hlev, hhref, hname⟩ := hR
  have hb1 := level_fillGroup h hfix hg1
  have hne1 : headings h doc1.html ≠ [] := List.ne_nil_of_mem hg1
  obtain ⟨g2', hg2', hR'⟩ := forall₂_mem_left hshift g1 hg1
  have hne2 : headings h doc2.html ≠ [] := List.ne_nil_of_mem hg2'
  -- the two minima differ by `k`
  have hmin : minHeaderNum h doc2.html = minHeaderNum h doc1.html + k := by
    obtain ⟨m1, hm1, hm1e⟩ := minHeaderNum_mem h hfix doc1.html hne1
    obtain ⟨m2, hm2, hm2e⟩ := minHeaderNum_mem h hfix doc2.html hne2
    obtain ⟨x2, hx2, hx⟩ := forall₂_mem_left hshift m1 hm1
    obtain ⟨x1, hx1, hx'⟩ := forall₂_mem_right hshift m2 hm2
    have l1 := (minHeaderNum_bounds h hfix doc1.html).2.2 x1 hx1
    have l2 := (minHeaderNum_bounds h hfix doc2.html).2.2 x2 hx2
    have e1 := hx.1
    have e2 := hx'.1
    omega
  have hlev2 : (Atoi g2.num).1 = (Atoi g1.num).1 + k := hlev
  refine ⟨hb1.1, ?_, ?_⟩
  · exact (level_fillGroup h hfix hg2).1
  · have hc : (Atoi g1.num).1 + k - (minHeaderNum h doc1.html + k) =
        (Atoi g1.num).1 - minHeaderNum h doc1.html := by omega
    have f1 : doc2.AbsPaths = doc1.AbsPaths := by rw [hcfg]
    have f2 : doc2.Path = doc1.Path := by rw [hcfg]
    have f3 : doc2.Escape = doc1.Escape := by rw [hcfg]
    have f4 : doc2.Indent = doc1.Indent := by rw [hcfg]
    simp only [tocItem, indentCount, hmin, hlev2, hhref, hname, hS, hS2, hc, f1, f2, f3, f4]

/-- Witness of C8: the scenario (levels 2, 3, 2) and the same headings one level deeper
(levels 3, 4, 3) have the same outline. -/
theorem GrabToc_shift_levels_witness :
    FixesLevelDigits specHelpers ∧ scenarioDoc.StartDepth = 0 ∧ scenarioDoc.Depth = 0 ∧
    (headings specHelpers scenarioDoc.html).map level = [2, 3, 2] ∧
    (headings specHelpers shiftedDoc.html).map level = [3, 4, 3] ∧
    GrabToc specHelpers shiftedDoc = GrabToc specHelpers scenarioDoc :=
  ⟨specHelpers_fixes, rfl, rfl, by decide!, by decide!,
    GrabToc_shift_levels specHelpers specHelpers_fixes scenarioDoc shiftedDoc 1 rfl rfl rfl (by
      have h1 : headings specHelpers scenarioDoc.html =
          [⟨utf8 "2", utf8 "#a", utf8 "Intro"⟩, ⟨utf8 "3", utf8 "#b", utf8 "Sub"⟩,
            ⟨utf8 "2", utf8 "#c", utf8 "Next"⟩] := by decide!
      have h2 : headings specHelpers shiftedDoc.html =
          [⟨utf8 "3", utf8 "#a", utf8 "Intro"⟩, ⟨utf8 "4", utf8 "#b", utf8 "Sub"⟩,
            ⟨utf8 "3", utf8 "#c", utf8 "Next"⟩] := by decide!
      rw [h1, h2]
      exact .cons ⟨by decide, rfl, rfl⟩ (.cons ⟨by decide, rfl, rfl⟩
        (.cons ⟨by decide, rfl, rfl⟩ .nil)))⟩

/-- C9, as stated, fails: the pattern is case-insensitive, so a text without `<h` can hold a
heading, here `<H1>`, and the outline is not empty. -/
theorem GrabToc_upper_case_heading :
    ¬ (utf8 "<h" <:+: upperCaseDoc.html) ∧
    GrabToc specHelpers upperCaseDoc = some [utf8 "* [Title](#title)"] := by
  decide!

/-- C9, amended: when the pattern matches at no position of the html -- in particular when
the html is empty, or has neither `<h` nor `<H` -- `FindAllStringSubmatch` finds nothing and
`GrabToc` returns the empty outline, whatever the settings and the helpers. -/
theorem GrabToc_no_match (h : Helpers) (doc : GHDoc)
    (hno : (∀ t, t <:+ doc.html → matchAt t = none) ∨ doc.html = [] ∨
      (¬ (utf8 "<h" <:+: doc.html) ∧ ¬ (utf8 "<H" <:+: doc.html))) :
    FindAllStringSubmatch doc.html = [] ∧ GrabToc h doc = some [] := by
  have hnil : FindAllStringSubmatch doc.html = [] := by
    rcases hno with h1 | h1 | ⟨h1, h2⟩
    · exact findAllLoop_nil _ _ h1
    · rw [h1]; decide
    · exact findAllLoop_nil _ _ (matchAt_none_of_no_tag _ h1 h2)
  exact ⟨hnil, by simp [GrabToc, hnil, matchLoop, formatLoop]⟩

/-- Witness of the amended C9: a paragraph without a heading tag. -/
theorem GrabToc_no_match_witness :
    (¬ (utf8 "<h" <:+: plainDoc.html) ∧ ¬ (utf8 "<H" <:+: plainDoc.html)) ∧
    FindAllStringSubmatch plainDoc.html = [] ∧ GrabToc specHelpers plainDoc = some [] :=
  ⟨by decide!, GrabToc_no_match specHelpers plainDoc (Or.inr (Or.inr (by decide!)))⟩

/-- C10, as stated, fails at the far end of the `int` range: with `StartDepth` the smallest
`int` (which is `≤ 0`) every heading of the scenario passes the depth window, the subtraction
`n-minHeaderNum-doc.StartDepth` wraps around to a negative count and `GrabToc` panics. -/
theorem indentCount_wraps :
    minIntDoc.StartDepth ≤ 0 ∧ minInt ≤ minIntDoc.StartDepth ∧
    (headings specHelpers minIntDoc.html).map level = [2, 3, 2] ∧
    (headings specHelpers minIntDoc.html).map (survives minIntDoc) = [true, true, true] ∧
    indentCount minIntDoc (minHeaderNum specHelpers minIntDoc.html) 2 = minInt ∧
    GrabToc specHelpers minIntDoc = none := by
  decide!

/-- C10, amended: for a heading that passes the depth window,
(1) when `StartDepth` is at least the smallest `int` plus 6 and either `StartDepth ≤ 0` or
some extracted heading has level 1, the count handed to `strings.Repeat` is
`level - minHeaderNum - StartDepth`, without wrap-around, and it is not negative;
(2) when `StartDepth ≥ 1`, the shallowest heading has a level of at least 2 and
`level < minLevel + StartDepth`, the count is negative and `GrabToc` panics. -/
theorem indentCount_sign (h : Helpers) (hfix : FixesLevelDigits h) (doc : GHDoc) (g : Group)
    (hg : g ∈ headings h doc.html) (hsurv : survives doc g = true) :
    ((minInt + 6 ≤ doc.StartDepth ∧
        (doc.StartDepth ≤ 0 ∨ ∃ g1 ∈ headings h doc.html, level g1 = 1)) →
      indentCount doc (minHeaderNum h doc.html) (level g) =
        level g - minHeaderNum h doc.html - doc.StartDepth ∧
      0 ≤ indentCount doc (minHeaderNum h doc.html) (level g)) ∧
    ((1 ≤ doc.StartDepth ∧ 2 ≤ minLevel (headings h doc.html) ∧
        level g < minLevel (headings h doc.html) + doc.StartDepth) →
      indentCount doc (minHeaderNum h doc.html) (level g) < 0 ∧ GrabToc h doc = none) := by
  obtain ⟨m1, m2, m3⟩ := minHeaderNum_bounds h hfix doc.html
  have hl := level_fillGroup h hfix hg
  have hm := m3 g hg
  have hpass := ((survives_iff doc g).1 hsurv).1
  have hmin : minHeaderNum h doc.html = minLevel (headings h doc.html) :=
    minHeaderNum_eq_minLevel h doc.html (fun g hg => (level_fillGroup h hfix hg).2)
  constructor
  · rintro ⟨hlo, hcase⟩
    have hnn : 0 ≤ level g - minHeaderNum h doc.html - doc.StartDepth := by
      rcases hcase with hc | ⟨g1, hg1, hone⟩
      · omega
      · have := m3 g1 hg1
        omega
    unfold minInt at hlo
    unfold indentCount wrapInt
    omega
  · rintro ⟨hS, hm2, hlt⟩
    rw [← hmin] at hm2 hlt
    have hneg : indentCount doc (minHeaderNum h doc.html) (level g) < 0 := by
      unfold indentCount wrapInt
      omega
    refine ⟨hneg, ?_⟩
    cases hret : GrabToc h doc with
    | none => rfl
    | some toc =>
      exfalso
      have hf := (GrabToc_some h doc toc).1 hret
      obtain ⟨line, _, hline⟩ := forall₂_mem_left hf g (List.mem_filter.2 ⟨hg, hsurv⟩)
      obtain ⟨unit, ind, _, hr, _⟩ := tocItem_some hline
      have := (Repeat_some hr).1
      omega

/-- Witness of the amended C10: in the scenario the heading of level 3 read with
`StartDepth = -1` has the count `3 - 2 + 1 = 2`; the heading of level 2 read with
`StartDepth = 1` has a negative count and `GrabToc` panics. -/
theorem indentCount_sign_witness :
    (indentCount startDepthNegDoc (minHeaderNum specHelpers startDepthNegDoc.html)
        (level ⟨utf8 "3", utf8 "#b", utf8 "Sub"⟩) = 2 ∧
      0 ≤ indentCount startDepthNegDoc (minHeaderNum specHelpers startDepthNegDoc.html)
        (level ⟨utf8 "3", utf8 "#b", utf8 "Sub"⟩)) ∧
    (indentCount startDepthOneDoc (minHeaderNum specHelpers startDepthOneDoc.html)
        (level ⟨utf8 "2", utf8 "#a", utf8 "Intro"⟩) < 0 ∧
      GrabToc specHelpers startDepthOneDoc = none) :=
  ⟨by
      have hw := (indentCount_sign specHelpers specHelpers_fixes startDepthNegDoc
        ⟨utf8 "3", utf8 "#b", utf8 "Sub"⟩ (by decide!) (by decide!)).1
        ⟨by decide, Or.inl (by decide)⟩
      refine ⟨?_, hw.2⟩
      rw [hw.1]
      decide!,
    (indentCount_sign specHelpers specHelpers_fixes startDepthOneDoc
      ⟨utf8 "2", utf8 "#a", utf8 "Intro"⟩ (by decide!) (by decide!)).2
      ⟨by decide, by decide!, by decide!⟩⟩

end GhToc
